import Mathlib

/-!
# yara-ruby: the `Yara::Rules` binding (`ext/yara_native/Rules.c`)

A shallow embedding of the binding functions of `Rules.c` and the properties
of the namespace handling, the compile wrappers and the scan wrappers.

Conventions of the embedding.

* The native engine (libyara), `Match.c`, the C library `fopen` and the
  constants of `yara.h` / `Yara_native.h` are not part of `Rules.c`.  They are
  collected in the record `Native`, and every binding function takes that
  record as its first argument.
* The linked list headed by `ctx->namespaces` is a `List NAMESPACE` in `next`
  order.  A `NAMESPACE *` is `Option NAMESPACE` (`none` is `NULL`); a node
  carries its address `addr`, so that two nodes with the same name stay
  distinguishable.  A `char *name` is `Option String` (`none` is `NULL`).
* The arguments of the compile wrappers and of `scan_file` (rule text, file
  name, namespace name) stand for the C strings that `RSTRING_PTR` yields.
  `set_namespace` takes the Ruby string itself, which may hold NUL characters:
  the C string the code reads from it is `c_string`, the characters before
  the first NUL.  The buffer of `scan_string`, which is passed with
  `RSTRING_LEN`, is a list of bytes.
* `Check_Type` never fails: the arguments are typed.
* C `int` results are `Int`; the conversion to `unsigned int` is `% 2^32`.
-/

namespace YaraRuby

/-! ## Data model -/

/-- The node type of the namespace list: `addr` is the address of the node,
`name` the `char *name` field (`none` for `NULL`). -/
structure NAMESPACE where
  addr : Nat
  name : Option String
deriving DecidableEq, Repr

/-- A compiled rule, as far as the binding sees it. -/
structure RULE where
  identifier : String
  ns : Option String
deriving DecidableEq, Repr

/-- The fields of `YARA_CONTEXT` that the binding reads or writes
(`namespaces`, `current_namespace`, `last_error_line`) and the engine state
the spec names (`rule_list`, `file_name_stack`). -/
structure YARA_CONTEXT where
  namespaces : List NAMESPACE
  current_namespace : Option NAMESPACE
  last_error_line : Int
  rule_list : List RULE
  file_name_stack : List String
deriving DecidableEq, Repr

/-- An open `FILE *`: the text that can be read from it. -/
structure FILE where
  content : String
deriving DecidableEq, Repr

/-- A `Yara::Match` object built by `Match_NEW_from_rule`. -/
structure Match where
  rule : RULE
deriving DecidableEq, Repr

/-- Ruby values returned by the binding. -/
inductive VALUE where
  | Qnil
  | Qtrue
  | str (s : String)
  | ary (xs : List Match)
deriving DecidableEq, Repr

/-- The two exception classes raised by `Rules.c`. -/
inductive RbClass where
  | CompileError
  | ScanError
deriving DecidableEq, Repr

/-- How a binding call ends: a return value, `rb_raise`, or a read of
`SCAN_ERRORS[index]` at an index for which the table has no entry. -/
inductive Result where
  | value (v : VALUE)
  | raise (klass : RbClass) (message : String)
  | out_of_table (index : Int)
deriving DecidableEq, Repr

/-- The scan callback type `int (*)(RULE *, void *data)`; `data` points to the
results array. -/
abbrev Callback := RULE → List Match → Int × List Match

/-- Everything `Rules.c` calls or reads but does not define. -/
structure Native where
  fopen : String → Option FILE
  yr_create_namespace : YARA_CONTEXT → String → Option NAMESPACE × YARA_CONTEXT
  yr_compile_file : FILE → YARA_CONTEXT → Int × YARA_CONTEXT
  yr_compile_string : String → YARA_CONTEXT → Int × YARA_CONTEXT
  yr_get_error_message : YARA_CONTEXT → String
  yr_push_file_name : YARA_CONTEXT → String → Int × YARA_CONTEXT
  yr_scan_file : String → YARA_CONTEXT → Callback → List Match → Int × List Match × YARA_CONTEXT
  yr_scan_mem : List Nat → Nat → YARA_CONTEXT → Callback → List Match → Int × List Match × YARA_CONTEXT
  Match_NEW_from_rule : RULE → Int × Option Match
  ERROR_COULD_NOT_OPEN_FILE : Int
  MAX_SCAN_ERROR : Nat
  SCAN_ERRORS : List String

/-! ## `find_namespace` (Rules.c 40-50) -/

/-- The loop `while(ns && ns->name)` of `find_namespace`, over the nodes from
`ns` on. -/
def find_namespace_loop (name : String) : List NAMESPACE → Option NAMESPACE
  | [] => none
  | ns :: next =>
    match ns.name with
    | none => none
    | some n => if name = n then some ns else find_namespace_loop name next

/-- `find_namespace(ctx, name)`. -/
def find_namespace (ctx : YARA_CONTEXT) (name : String) : Option NAMESPACE :=
  find_namespace_loop name ctx.namespaces

/-! ## `rules_compile_file` (Rules.c 70-119) -/

/-- Lines 96-102: the namespace switch before `yr_compile_file`.  Returns
`orig_ns` and the context handed to the native compiler. -/
def compile_file_enter (N : Native) (ctx : YARA_CONTEXT) (rb_ns : Option String) :
    Option NAMESPACE × YARA_CONTEXT :=
  match rb_ns with
  | none => (none, ctx)
  | some nsname =>
    match ctx.current_namespace with
    | none => (none, ctx)
    | some orig =>
      match find_namespace ctx nsname with
      | some ns => (some orig, { ctx with current_namespace := some ns })
      | none =>
        let r := N.yr_create_namespace ctx nsname
        (some orig, { r.2 with current_namespace := r.1 })

/-- `rules.compile_file(filename, ns=nil)`. -/
def rules_compile_file (N : Native) (ctx : YARA_CONTEXT) (rb_fname : String)
    (rb_ns : Option String) : Result × YARA_CONTEXT :=
  let fname := rb_fname
  match N.fopen fname with
  | none => (Result.raise RbClass.CompileError ("No such file: " ++ fname), ctx)
  | some file =>
    let e := compile_file_enter N ctx rb_ns
    let orig_ns := e.1
    let c := N.yr_compile_file file e.2
    if c.1 ≠ 0 then
      (Result.raise RbClass.CompileError
        ("Syntax Error - " ++ fname ++ "(" ++ toString c.2.last_error_line ++ "): "
          ++ N.yr_get_error_message c.2), c.2)
    else
      let p := N.yr_push_file_name c.2 fname
      match orig_ns with
      | some orig => (Result.value VALUE.Qtrue, { p.2 with current_namespace := some orig })
      | none => (Result.value VALUE.Qtrue, p.2)

/-! ## `rules_compile_string` (Rules.c 138-176) -/

/-- Lines 158-165: the namespace switch before `yr_compile_string`. -/
def compile_string_enter (N : Native) (ctx : YARA_CONTEXT) (rb_ns : Option String) :
    Option NAMESPACE × YARA_CONTEXT :=
  match rb_ns with
  | none => (none, ctx)
  | some nsname =>
    match ctx.current_namespace with
    | none => (none, ctx)
    | some _ =>
      let orig_ns := ctx.current_namespace
      match find_namespace ctx nsname with
      | some ns => (orig_ns, { ctx with current_namespace := some ns })
      | none =>
        let r := N.yr_create_namespace ctx nsname
        (orig_ns, { r.2 with current_namespace := r.1 })

/-- `rules.compile_string(rules_string, ns=nil)`. -/
def rules_compile_string (N : Native) (ctx : YARA_CONTEXT) (rb_rules : String)
    (rb_ns : Option String) : Result × YARA_CONTEXT :=
  let rules := rb_rules
  let e := compile_string_enter N ctx rb_ns
  let orig_ns := e.1
  let c := N.yr_compile_string rules e.2
  if c.1 ≠ 0 then
    (Result.raise RbClass.CompileError
      ("Syntax Error - line(" ++ toString c.2.last_error_line ++ "): "
        ++ N.yr_get_error_message c.2), c.2)
  else
    match orig_ns with
    | some orig => (Result.value VALUE.Qtrue, { c.2 with current_namespace := some orig })
    | none => (Result.value VALUE.Qtrue, c.2)

/-! ## Namespace accessors (Rules.c 198-259) -/

/-- `rules.current_namespace()`: the name of the current namespace, `none`
for `Qnil`. -/
def rules_current_namespace (ctx : YARA_CONTEXT) : Option String :=
  match ctx.current_namespace with
  | none => none
  | some ns =>
    match ns.name with
    | none => none
    | some n => some n

/-- The loop of `rules_namespaces`, over the nodes from `ns` on. -/
def rules_namespaces_loop : List NAMESPACE → List String
  | [] => []
  | ns :: next =>
    match ns.name with
    | none => []
    | some n => n :: rules_namespaces_loop next

/-- `rules.namespaces()`. -/
def rules_namespaces (ctx : YARA_CONTEXT) : List String :=
  rules_namespaces_loop ctx.namespaces

/-- The characters of a C string stored in a buffer: those before the first
NUL. -/
def c_string_chars : List Char → List Char
  | [] => []
  | c :: rest => if c = Char.ofNat 0 then [] else c :: c_string_chars rest

/-- `RSTRING_PTR(v)` read as a `const char *`, as `strcmp`, `yr_strdup` and
`rb_str_new2` read it: the Ruby string up to its first NUL character. -/
def c_string (v : String) : String := ⟨c_string_chars v.data⟩

/-- `rules.set_namespace(name)`: `name = RSTRING_PTR(rb_namespace)` is used as
a C string; the value returned is the Ruby string passed in. -/
def rules_set_namespace (N : Native) (ctx : YARA_CONTEXT) (rb_namespace : String) :
    VALUE × YARA_CONTEXT :=
  let name := c_string rb_namespace
  match find_namespace ctx name with
  | some ns => (VALUE.str rb_namespace, { ctx with current_namespace := some ns })
  | none =>
    let r := N.yr_create_namespace ctx name
    match r.1 with
    | some ns => (VALUE.str rb_namespace, { r.2 with current_namespace := some ns })
    | none => (VALUE.Qnil, r.2)

/-! ## Scanning (Rules.c 262-346) -/

/-- `scan_callback(rule, data)`: appends the match object to the results when
`Match_NEW_from_rule` returns 0 and a non-nil match; returns its code. -/
def scan_callback (N : Native) : Callback := fun rule results =>
  let m := N.Match_NEW_from_rule rule
  match m.2 with
  | some mt => if m.1 = 0 then (m.1, results ++ [mt]) else (m.1, results)
  | none => (m.1, results)

/-- The value of `(ret > MAX_SCAN_ERROR) ? "unknown error" : SCAN_ERRORS[ret]`
before the table is read: the literal, or the index that is read. -/
inductive ErrorText where
  | unknown_error
  | table_entry (index : Int)
deriving DecidableEq, Repr

/-- Conversion of a C `int` to `unsigned int`. -/
def to_unsigned (r : Int) : Int := r % 4294967296

/-- Line 306, `ret` being `unsigned int`: `MAX_SCAN_ERROR` is converted to
unsigned for the comparison. -/
def scan_file_error_text (N : Native) (ret : Int) : ErrorText :=
  if ret > to_unsigned (N.MAX_SCAN_ERROR : Int) then ErrorText.unknown_error
  else ErrorText.table_entry ret

/-- Line 343, `ret` being `int`: a signed comparison. -/
def scan_string_error_text (N : Native) (ret : Int) : ErrorText :=
  if ret > (N.MAX_SCAN_ERROR : Int) then ErrorText.unknown_error
  else ErrorText.table_entry ret

/-- The read `SCAN_ERRORS[index]`: `none` when the table has no such entry. -/
def table_read (N : Native) (index : Int) : Option String :=
  if 0 ≤ index then N.SCAN_ERRORS[index.toNat]? else none

/-- `rb_raise(error_ScanError, "A error occurred while scanning: %s", text)`. -/
def raise_scan_error (N : Native) : ErrorText → Result
  | ErrorText.unknown_error =>
    Result.raise RbClass.ScanError ("A error occurred while scanning: " ++ "unknown error")
  | ErrorText.table_entry i =>
    match table_read N i with
    | some s => Result.raise RbClass.ScanError ("A error occurred while scanning: " ++ s)
    | none => Result.out_of_table i

/-- `rules.scan_file(filename)`. -/
def rules_scan_file (N : Native) (ctx : YARA_CONTEXT) (rb_fname : String) :
    Result × YARA_CONTEXT :=
  let fname := rb_fname
  let s := N.yr_scan_file fname ctx (scan_callback N) []
  let ret := to_unsigned s.1
  let results := s.2.1
  if ret = to_unsigned N.ERROR_COULD_NOT_OPEN_FILE then
    (Result.raise RbClass.ScanError ("Could not open file: '" ++ fname ++ "'"), s.2.2)
  else if ret ≠ 0 then
    (raise_scan_error N (scan_file_error_text N ret), s.2.2)
  else
    (Result.value (VALUE.ary results), s.2.2)

/-- `RSTRING_PTR(rb_dat)`: the bytes of the Ruby string. -/
def RSTRING_PTR (rb_dat : List Nat) : List Nat := rb_dat

/-- `RSTRING_LEN(rb_dat)`: the number of bytes of the Ruby string. -/
def RSTRING_LEN (rb_dat : List Nat) : Nat := rb_dat.length

/-- The C library `strlen`: the number of bytes before the first NUL. -/
def strlen : List Nat → Nat
  | [] => 0
  | b :: rest => if b = 0 then 0 else strlen rest + 1

/-- `rules.scan_string(buf)`. -/
def rules_scan_string (N : Native) (ctx : YARA_CONTEXT) (rb_dat : List Nat) :
    Result × YARA_CONTEXT :=
  let buf := RSTRING_PTR rb_dat
  let buflen := RSTRING_LEN rb_dat
  let s := N.yr_scan_mem buf buflen ctx (scan_callback N) []
  let ret := s.1
  let results := s.2.1
  if ret ≠ 0 then
    (raise_scan_error N (scan_string_error_text N ret), s.2.2)
  else
    (Result.value (VALUE.ary results), s.2.2)

/-! ## Contracts of the native engine

The engine is outside `Rules.c`; the properties below are the parts of its
contract, as the spec words them, that the theorems name as hypotheses. -/

/-- Modelled from the spec: a Namespace has a name (section 3, "Namespace:
name (unique string key)"), so every node the engine links into the table
carries one. -/
def NamedTable (ctx : YARA_CONTEXT) : Prop :=
  ∀ ns ∈ ctx.namespaces, ns.name ≠ none

/-- Modelled from the spec: `create(name) -> new Namespace, inserted`
(section 4.1) and "namespace creation never fails" (section 7):
`yr_create_namespace` returns a node with the given name, links it into the
table and leaves everything else of the context alone. -/
def CreatesNamespace (N : Native) : Prop :=
  ∀ (ctx : YARA_CONTEXT) (name : String), ∃ ns pre post,
    ctx.namespaces = pre ++ post ∧ ns.name = some name ∧
    N.yr_create_namespace ctx name = (some ns, { ctx with namespaces := pre ++ ns :: post })

/-- Modelled from the spec: namespaces come into being only through
`create` / `set_current` (sections 3 and 4.1): the native compiler and
`yr_push_file_name` leave the namespace table as they find it. -/
def CompilerKeepsTable (N : Native) : Prop :=
  (∀ text c, (N.yr_compile_string text c).2.namespaces = c.namespaces) ∧
  (∀ file c, (N.yr_compile_file file c).2.namespaces = c.namespaces) ∧
  (∀ c fname, (N.yr_push_file_name c fname).2.namespaces = c.namespaces)

/-- The names of the table are pairwise distinct. -/
def UniqueNames (ctx : YARA_CONTEXT) : Prop :=
  (ctx.namespaces.map NAMESPACE.name).Nodup

/-- A well-formed rule text. -/
def good_rules : String := "rule A \x7b condition: true \x7d"

/-- A malformed rule text. -/
def bad_rules : String := "rule \x7b"

/-- Modelled from the spec: a stand-in for the native engine, which is not in
`Rules.c`.  `yr_create_namespace` links a new named node at the head of the
table (section 4.1 `create`); the compiler accepts `good_rules`, which adds
rule `A` to the current namespace, and rejects every other text with a
non-zero code on line 1, installing nothing (section 4.2); the file system
holds `good.yar` and `bad.yar`; scanning reports every compiled rule. -/
def refNative : Native where
  fopen := fun fname =>
    if fname = "good.yar" then some ⟨good_rules⟩
    else if fname = "bad.yar" then some ⟨bad_rules⟩ else none
  yr_create_namespace := fun ctx name =>
    let ns : NAMESPACE := ⟨ctx.namespaces.length, some name⟩
    (some ns, { ctx with namespaces := [] ++ ns :: ctx.namespaces })
  yr_compile_file := fun file ctx =>
    if file.content = good_rules then
      (0, { ctx with rule_list := ctx.rule_list ++
              [⟨"A", ctx.current_namespace.bind NAMESPACE.name⟩] })
    else (14, { ctx with last_error_line := 1 })
  yr_compile_string := fun text ctx =>
    if text = good_rules then
      (0, { ctx with rule_list := ctx.rule_list ++
              [⟨"A", ctx.current_namespace.bind NAMESPACE.name⟩] })
    else (14, { ctx with last_error_line := 1 })
  yr_get_error_message := fun _ => "unexpected token"
  yr_push_file_name := fun ctx fname =>
    (0, { ctx with file_name_stack := fname :: ctx.file_name_stack })
  yr_scan_file := fun fname ctx cb acc =>
    if fname = "good.yar" ∨ fname = "bad.yar" then
      (0, (ctx.rule_list.foldl (fun a r => (cb r a).2) acc), ctx)
    else (12, acc, ctx)
  yr_scan_mem := fun _ _ ctx cb acc =>
    (0, (ctx.rule_list.foldl (fun a r => (cb r a).2) acc), ctx)
  Match_NEW_from_rule := fun r => (0, some ⟨r⟩)
  ERROR_COULD_NOT_OPEN_FILE := 12
  MAX_SCAN_ERROR := 30
  SCAN_ERRORS := List.replicate 31 "error"

/-- The context `yr_create_context` hands out: the table holds the namespace
`default`, which is current. -/
def ctx0 : YARA_CONTEXT :=
  { namespaces := [⟨0, some "default"⟩]
    current_namespace := some ⟨0, some "default"⟩
    last_error_line := 0
    rule_list := []
    file_name_stack := [] }

/-! ## Further contexts and predicates for the theorems -/

/-- The part of the table that the walks of `find_namespace` and
`rules_namespaces` visit: the nodes before the first one without a name. -/
def named_part : List NAMESPACE → List NAMESPACE
  | [] => []
  | ns :: next =>
    match ns.name with
    | none => []
    | some _ => ns :: named_part next

/-- The reference context after `set_namespace("Y")`: the table is
`Y, default` and `Y` is current. -/
def ctxY : YARA_CONTEXT := (rules_set_namespace refNative ctx0 "Y").2

/-- The reference context after `set_namespace("X")`: the table is
`X, default` and `X` is current. -/
def ctxX : YARA_CONTEXT := (rules_set_namespace refNative ctx0 "X").2

/-- A Ruby string with a NUL character in the middle: `Y`, NUL, `Z`. -/
def name_with_nul : String := ⟨['Y', Char.ofNat 0, 'Z']⟩

/-- Another one with the same C string: `Y`, NUL, `W`. -/
def other_name_with_nul : String := ⟨['Y', Char.ofNat 0, 'W']⟩

/-- A table whose head node has no name (`name == NULL`), followed by
`default`. -/
def ctxUnnamed : YARA_CONTEXT :=
  { ctx0 with namespaces := [⟨1, none⟩, ⟨0, some "default"⟩] }

/-! # Theorems -/

/-! ## Lemmas on the table walk -/

theorem find_namespace_loop_some (name : String) (l : List NAMESPACE) (ns : NAMESPACE)
    (h : find_namespace_loop name l = some ns) :
    ns.name = some name ∧ ∃ pre post, l = pre ++ ns :: post ∧
      ∀ m ∈ pre, m.name ≠ none ∧ m.name ≠ some name := by
  induction l with
  | nil => simp [find_namespace_loop] at h
  | cons a t ih =>
    unfold find_namespace_loop at h
    cases hn : a.name with
    | none => simp [hn] at h
    | some n =>
      simp only [hn] at h
      by_cases hc : name = n
      · simp only [hc, if_true, Option.some.injEq] at h
        subst h
        refine ⟨by rw [hn, hc], [], t, rfl, ?_⟩
        intro m hm
        simp at hm
      · simp only [hc, if_false] at h
        obtain ⟨h1, pre, post, h2, h3⟩ := ih h
        refine ⟨h1, a :: pre, post, by rw [h2]; rfl, ?_⟩
        intro m hm
        rcases List.mem_cons.mp hm with rfl | hm
        · rw [hn]
          refine ⟨by simp, ?_⟩
          intro hh
          exact hc (Option.some.inj hh).symm
        · exact h3 m hm

theorem find_namespace_loop_none (name : String) (l : List NAMESPACE)
    (hnamed : ∀ ns ∈ l, ns.name ≠ none) :
    find_namespace_loop name l = none ↔ ∀ ns ∈ l, ns.name ≠ some name := by
  induction l with
  | nil => simp [find_namespace_loop]
  | cons a t ih =>
    have ht : ∀ ns ∈ t, ns.name ≠ none := fun ns h => hnamed ns (List.mem_cons_of_mem _ h)
    unfold find_namespace_loop
    cases hn : a.name with
    | none => exact absurd hn (hnamed a (List.mem_cons_self _ _))
    | some n =>
      by_cases hc : name = n
      · subst hc
        simp [hn]
      · have hc2 : n ≠ name := fun h => hc h.symm
        simp [hc, hc2, hn, ih ht]

theorem named_part_eq_self (l : List NAMESPACE) (hnamed : ∀ ns ∈ l, ns.name ≠ none) :
    named_part l = l := by
  induction l with
  | nil => rfl
  | cons a t ih =>
    have ht : ∀ ns ∈ t, ns.name ≠ none := fun ns h => hnamed ns (List.mem_cons_of_mem _ h)
    unfold named_part
    cases hn : a.name with
    | none => exact absurd hn (hnamed a (List.mem_cons_self _ _))
    | some n => simp [ih ht]

theorem named_part_named (l : List NAMESPACE) : ∀ ns ∈ named_part l, ns.name ≠ none := by
  induction l with
  | nil => simp [named_part]
  | cons a t ih =>
    unfold named_part
    cases hn : a.name with
    | none => simp
    | some n =>
      intro ns hns
      rcases List.mem_cons.mp hns with rfl | h
      · simp [hn]
      · exact ih ns h

/-- On every table, named or not, `find_namespace` searches exactly the nodes
before the first unnamed one. -/
theorem find_namespace_loop_named_part (name : String) (l : List NAMESPACE) :
    find_namespace_loop name l = find_namespace_loop name (named_part l) := by
  induction l with
  | nil => rfl
  | cons a t ih =>
    cases hn : a.name with
    | none => simp [find_namespace_loop, named_part, hn]
    | some n => simp [find_namespace_loop, named_part, hn, ih]

/-- C5: on a table whose entries all carry a name, `find_namespace` returns an
entry of the table whose name is the given name, the first such in table order,
whenever the table holds one, and returns not-found (`none`, for `NULL`)
exactly when no entry of the table has that name. -/
theorem find_namespace_spec (ctx : YARA_CONTEXT) (name : String) (hnamed : NamedTable ctx) :
    (∀ ns, find_namespace ctx name = some ns →
      ns.name = some name ∧ ∃ pre post, ctx.namespaces = pre ++ ns :: post ∧
        ∀ m ∈ pre, m.name ≠ some name) ∧
    ((∃ ns ∈ ctx.namespaces, ns.name = some name) →
      ∃ ns, find_namespace ctx name = some ns) ∧
    (find_namespace ctx name = none ↔ ∀ ns ∈ ctx.namespaces, ns.name ≠ some name) := by
  refine ⟨?_, ?_, find_namespace_loop_none name ctx.namespaces hnamed⟩
  · intro ns h
    obtain ⟨h1, pre, post, h2, h3⟩ := find_namespace_loop_some name ctx.namespaces ns h
    exact ⟨h1, pre, post, h2, fun m hm => (h3 m hm).2⟩
  · rintro ⟨ns, hmem, hname⟩
    cases hf : find_namespace ctx name with
    | some e => exact ⟨e, rfl⟩
    | none =>
      exact absurd hname ((find_namespace_loop_none name ctx.namespaces hnamed).mp hf ns hmem)

/-- Witness of C5 at the table `Y, default` and the name `default`. -/
theorem find_namespace_spec_witness :
    NamedTable ctxY ∧ find_namespace ctxY "default" = some ⟨0, some "default"⟩ ∧
    ((∀ ns, find_namespace ctxY "default" = some ns →
      ns.name = some "default" ∧ ∃ pre post, ctxY.namespaces = pre ++ ns :: post ∧
        ∀ m ∈ pre, m.name ≠ some "default") ∧
    ((∃ ns ∈ ctxY.namespaces, ns.name = some "default") →
      ∃ ns, find_namespace ctxY "default" = some ns) ∧
    (find_namespace ctxY "default" = none ↔
      ∀ ns ∈ ctxY.namespaces, ns.name ≠ some "default")) :=
  ⟨by unfold NamedTable; decide, by decide,
    find_namespace_spec ctxY "default" (by unfold NamedTable; decide)⟩

/-! ## The reference engine meets the contracts -/

theorem refNative_creates : CreatesNamespace refNative := by
  intro ctx name
  exact ⟨⟨ctx.namespaces.length, some name⟩, [], ctx.namespaces, rfl, rfl, rfl⟩

theorem refNative_keeps_table : CompilerKeepsTable refNative := by
  refine ⟨?_, ?_, ?_⟩
  · intro text c
    simp only [refNative]
    split <;> rfl
  · intro file c
    simp only [refNative]
    split <;> rfl
  · intro c fname
    rfl

/-! ## The namespace switch of the compile wrappers -/

theorem compile_file_enter_eq (N : Native) (ctx : YARA_CONTEXT) (rb_ns : Option String) :
    compile_file_enter N ctx rb_ns = compile_string_enter N ctx rb_ns := by
  unfold compile_file_enter compile_string_enter
  cases rb_ns with
  | none => rfl
  | some y =>
    cases hc : ctx.current_namespace with
    | none => rfl
    | some o => rfl

/-- The three ways through lines 158-165: no switch, a switch to an entry
that `find_namespace` found, a switch to a namespace created for the call. -/
theorem compile_string_enter_cases (N : Native) (ctx : YARA_CONTEXT) (rb_ns : Option String)
    (hcreate : CreatesNamespace N) :
    ((rb_ns = none ∨ ctx.current_namespace = none) ∧
      compile_string_enter N ctx rb_ns = (none, ctx)) ∨
    (∃ y orig e, rb_ns = some y ∧ ctx.current_namespace = some orig ∧
      find_namespace ctx y = some e ∧
      compile_string_enter N ctx rb_ns = (some orig, { ctx with current_namespace := some e })) ∨
    (∃ y orig e pre post, rb_ns = some y ∧ ctx.current_namespace = some orig ∧
      find_namespace ctx y = none ∧ e.name = some y ∧ ctx.namespaces = pre ++ post ∧
      N.yr_create_namespace ctx y = (some e, { ctx with namespaces := pre ++ e :: post }) ∧
      compile_string_enter N ctx rb_ns =
        (some orig, { ctx with namespaces := pre ++ e :: post, current_namespace := some e })) := by
  cases rb_ns with
  | none => exact Or.inl ⟨Or.inl rfl, rfl⟩
  | some y =>
    rcases Option.eq_none_or_eq_some ctx.current_namespace with hc | ⟨orig, hc⟩
    · refine Or.inl ⟨Or.inr hc, ?_⟩
      simp [compile_string_enter, hc]
    · rcases Option.eq_none_or_eq_some (find_namespace ctx y) with hf | ⟨e, hf⟩
      · obtain ⟨e, pre, post, h1, h2, h3⟩ := hcreate ctx y
        refine Or.inr (Or.inr ⟨y, orig, e, pre, post, rfl, hc, hf, h2, h1, h3, ?_⟩)
        simp [compile_string_enter, hc, hf, h3]
      · refine Or.inr (Or.inl ⟨y, orig, e, rfl, hc, hf, ?_⟩)
        simp [compile_string_enter, hc, hf]

/-- The table after the switch is the table before it, or that table with one
node of the requested name linked in, the name being absent before. -/
theorem compile_string_enter_table (N : Native) (ctx : YARA_CONTEXT) (rb_ns : Option String)
    (hcreate : CreatesNamespace N) :
    (compile_string_enter N ctx rb_ns).2.namespaces = ctx.namespaces ∨
    ∃ y e pre post, rb_ns = some y ∧ find_namespace ctx y = none ∧ e.name = some y ∧
      ctx.namespaces = pre ++ post ∧
      (compile_string_enter N ctx rb_ns).2.namespaces = pre ++ e :: post := by
  rcases compile_string_enter_cases N ctx rb_ns hcreate with
    ⟨_, h⟩ | ⟨y, orig, e, _, _, _, h⟩ | ⟨y, orig, e, pre, post, h1, _, h3, h4, h5, _, h⟩
  · left; rw [h]
  · left; rw [h]
  · right
    exact ⟨y, e, pre, post, h1, h3, h4, h5, by rw [h]⟩

/-- On failure the compile wrappers return the context exactly as the native
compiler left it; on success only `current_namespace` is written. -/
theorem rules_compile_string_ctx (N : Native) (ctx : YARA_CONTEXT) (rules : String)
    (rb_ns : Option String) :
    ((N.yr_compile_string rules (compile_string_enter N ctx rb_ns).2).1 ≠ 0 →
      (rules_compile_string N ctx rules rb_ns).2 =
        (N.yr_compile_string rules (compile_string_enter N ctx rb_ns).2).2) ∧
    (rules_compile_string N ctx rules rb_ns).2.namespaces =
      (N.yr_compile_string rules (compile_string_enter N ctx rb_ns).2).2.namespaces := by
  unfold rules_compile_string
  constructor
  · intro h
    simp [h]
  · by_cases h : (N.yr_compile_string rules (compile_string_enter N ctx rb_ns).2).1 = 0
    · simp only [h, ne_eq, not_true_eq_false, if_false]
      cases (compile_string_enter N ctx rb_ns).1 <;> rfl
    · simp [h]

theorem rules_compile_file_ctx (N : Native) (ctx : YARA_CONTEXT) (fname : String)
    (rb_ns : Option String) (file : FILE) (hopen : N.fopen fname = some file) :
    ((N.yr_compile_file file (compile_file_enter N ctx rb_ns).2).1 ≠ 0 →
      (rules_compile_file N ctx fname rb_ns).2 =
        (N.yr_compile_file file (compile_file_enter N ctx rb_ns).2).2) ∧
    ((rules_compile_file N ctx fname rb_ns).2.namespaces =
      (N.yr_compile_file file (compile_file_enter N ctx rb_ns).2).2.namespaces ∨
    (rules_compile_file N ctx fname rb_ns).2.namespaces =
      (N.yr_push_file_name
        (N.yr_compile_file file (compile_file_enter N ctx rb_ns).2).2 fname).2.namespaces) := by
  unfold rules_compile_file
  simp only [hopen]
  constructor
  · intro h
    simp [h]
  · by_cases h : (N.yr_compile_file file (compile_file_enter N ctx rb_ns).2).1 = 0
    · right
      simp only [h, ne_eq, not_true_eq_false, if_false]
      cases (compile_file_enter N ctx rb_ns).1 <;> rfl
    · left
      simp [h]

/-! ## `set_namespace` -/

theorem c_string_chars_of_no_nul (l : List Char) (h : Char.ofNat 0 ∉ l) :
    c_string_chars l = l := by
  induction l with
  | nil => rfl
  | cons c t ih =>
    have hc : c ≠ Char.ofNat 0 := fun e => h (by rw [e]; exact List.mem_cons_self _ _)
    have ht : Char.ofNat 0 ∉ t := fun m => h (List.mem_cons_of_mem _ m)
    simp [c_string_chars, hc, ih ht]

/-- A Ruby string without a NUL character is its own C string. -/
theorem c_string_of_no_nul (v : String) (h : Char.ofNat 0 ∉ v.data) : c_string v = v := by
  unfold c_string
  rw [c_string_chars_of_no_nul v.data h]

theorem c_string_chars_no_nul (l : List Char) : Char.ofNat 0 ∉ c_string_chars l := by
  induction l with
  | nil => simp [c_string_chars]
  | cons c t ih =>
    by_cases hc : c = Char.ofNat 0
    · simp [c_string_chars, hc]
    · simp only [c_string_chars, hc, if_false, List.mem_cons, not_or]
      exact ⟨fun e => hc e.symm, ih⟩

/-- The two ways through `rules_set_namespace` when creation works: the entry
found becomes current, or a new entry is linked in and becomes current.  The
name looked up and created is the C string of the argument. -/
theorem rules_set_namespace_cases (N : Native) (ctx : YARA_CONTEXT) (name : String)
    (hcreate : CreatesNamespace N) :
    (∃ e, find_namespace ctx (c_string name) = some e ∧
      rules_set_namespace N ctx name =
        (VALUE.str name, { ctx with current_namespace := some e })) ∨
    (∃ e pre post, find_namespace ctx (c_string name) = none ∧
      e.name = some (c_string name) ∧ ctx.namespaces = pre ++ post ∧
      rules_set_namespace N ctx name =
        (VALUE.str name,
          { ctx with namespaces := pre ++ e :: post, current_namespace := some e })) := by
  rcases Option.eq_none_or_eq_some (find_namespace ctx (c_string name)) with hf | ⟨e, hf⟩
  · obtain ⟨e, pre, post, h1, h2, h3⟩ := hcreate ctx (c_string name)
    refine Or.inr ⟨e, pre, post, hf, h2, h1, ?_⟩
    simp [rules_set_namespace, hf, h3]
  · refine Or.inl ⟨e, hf, ?_⟩
    simp [rules_set_namespace, hf]

/-- C4 (counterexample): `set_namespace` with the Ruby string `Y\0Z`, in the
initial context, makes a namespace called `Y` and `current_namespace()`
returns `Y`, not the argument; called again with `Y\0W`, a name the table
does not hold, it finds the entry `Y` and adds nothing. -/
theorem set_namespace_truncates_at_nul :
    rules_current_namespace (rules_set_namespace refNative ctx0 name_with_nul).2 = some "Y" ∧
    rules_current_namespace (rules_set_namespace refNative ctx0 name_with_nul).2
      ≠ some name_with_nul ∧
    rules_namespaces (rules_set_namespace refNative ctx0 name_with_nul).2 = ["Y", "default"] ∧
    (∀ ns ∈ ctxY.namespaces, ns.name ≠ some other_name_with_nul) ∧
    (rules_set_namespace refNative ctxY other_name_with_nul).2.namespaces = ctxY.namespaces ∧
    rules_current_namespace (rules_set_namespace refNative ctxY other_name_with_nul).2
      = some "Y" := by
  decide

/-- C4 (amended): `set_namespace(name)` makes current the namespace called by
the C string of `name`, that is `name` up to its first NUL character and
`name` itself when it holds none, so that `current_namespace()` returns that
C string afterwards.  If the table holds an entry with that C string as its
name, the entry `find_namespace` returns becomes current and nothing else of
the context changes; if it holds none, an entry with that name is linked into
the table and becomes current.  (The engine creates namespaces as its
contract says, and every entry of the table carries a name.) -/
theorem set_namespace_spec (N : Native) (ctx : YARA_CONTEXT) (name : String)
    (hcreate : CreatesNamespace N) (hnamed : NamedTable ctx) :
    rules_current_namespace (rules_set_namespace N ctx name).2 = some (c_string name) ∧
    (Char.ofNat 0 ∉ name.data → c_string name = name ∧
      rules_current_namespace (rules_set_namespace N ctx name).2 = some name) ∧
    (rules_set_namespace N ctx name).1 = VALUE.str name ∧
    ((∃ ns ∈ ctx.namespaces, ns.name = some (c_string name)) →
      ∃ e, e ∈ ctx.namespaces ∧ e.name = some (c_string name) ∧
        find_namespace ctx (c_string name) = some e ∧
        (rules_set_namespace N ctx name).2 = { ctx with current_namespace := some e }) ∧
    ((∀ ns ∈ ctx.namespaces, ns.name ≠ some (c_string name)) →
      ∃ e pre post, e.name = some (c_string name) ∧ ctx.namespaces = pre ++ post ∧
        (rules_set_namespace N ctx name).2 =
          { ctx with namespaces := pre ++ e :: post, current_namespace := some e }) := by
  have hcur : rules_current_namespace (rules_set_namespace N ctx name).2
      = some (c_string name) := by
    rcases rules_set_namespace_cases N ctx name hcreate with
      ⟨e, hf, hr⟩ | ⟨e, pre, post, hf, he, hsplit, hr⟩
    · obtain ⟨hname, _⟩ := find_namespace_loop_some (c_string name) ctx.namespaces e hf
      rw [hr]
      simp [rules_current_namespace, hname]
    · rw [hr]
      simp [rules_current_namespace, he]
  refine ⟨hcur, ?_, ?_, ?_, ?_⟩
  · intro hno
    have h := c_string_of_no_nul name hno
    exact ⟨h, by rw [hcur, h]⟩
  · rcases rules_set_namespace_cases N ctx name hcreate with
      ⟨e, hf, hr⟩ | ⟨e, pre, post, hf, he, hsplit, hr⟩
    · rw [hr]
    · rw [hr]
  · rintro ⟨ns, hmem, hname⟩
    rcases rules_set_namespace_cases N ctx name hcreate with
      ⟨e, hf, hr⟩ | ⟨e, pre, post, hf, he, hsplit, hr⟩
    · obtain ⟨hn, p, q, hpq, _⟩ := find_namespace_loop_some (c_string name) ctx.namespaces e hf
      exact ⟨e, by rw [hpq]; simp, hn, hf, by rw [hr]⟩
    · exact absurd hname
        ((find_namespace_loop_none (c_string name) ctx.namespaces hnamed).mp hf ns hmem)
  · intro hno
    rcases rules_set_namespace_cases N ctx name hcreate with
      ⟨e, hf, hr⟩ | ⟨e, pre, post, hf, he, hsplit, hr⟩
    · obtain ⟨hn, p, q, hpq, _⟩ := find_namespace_loop_some (c_string name) ctx.namespaces e hf
      exact absurd hn (hno e (by rw [hpq]; simp))
    · exact ⟨e, pre, post, he, hsplit, by rw [hr]⟩

/-- Witness of the amended C4 at the initial context and the Ruby string
`Y\0Z`, whose C string `Y` is new to the table. -/
theorem set_namespace_spec_witness :
    CreatesNamespace refNative ∧ NamedTable ctx0 ∧ c_string name_with_nul = "Y" ∧
    rules_namespaces (rules_set_namespace refNative ctx0 name_with_nul).2 = ["Y", "default"] ∧
    (rules_current_namespace (rules_set_namespace refNative ctx0 name_with_nul).2
        = some (c_string name_with_nul) ∧
    (Char.ofNat 0 ∉ name_with_nul.data → c_string name_with_nul = name_with_nul ∧
      rules_current_namespace (rules_set_namespace refNative ctx0 name_with_nul).2
        = some name_with_nul) ∧
    (rules_set_namespace refNative ctx0 name_with_nul).1 = VALUE.str name_with_nul ∧
    ((∃ ns ∈ ctx0.namespaces, ns.name = some (c_string name_with_nul)) →
      ∃ e, e ∈ ctx0.namespaces ∧ e.name = some (c_string name_with_nul) ∧
        find_namespace ctx0 (c_string name_with_nul) = some e ∧
        (rules_set_namespace refNative ctx0 name_with_nul).2
          = { ctx0 with current_namespace := some e }) ∧
    ((∀ ns ∈ ctx0.namespaces, ns.name ≠ some (c_string name_with_nul)) →
      ∃ e pre post, e.name = some (c_string name_with_nul) ∧ ctx0.namespaces = pre ++ post ∧
        (rules_set_namespace refNative ctx0 name_with_nul).2 =
          { ctx0 with namespaces := pre ++ e :: post, current_namespace := some e })) :=
  ⟨refNative_creates, by unfold NamedTable; decide, by decide, by decide,
    set_namespace_spec refNative ctx0 name_with_nul refNative_creates
      (by unfold NamedTable; decide)⟩

/-! ## Invariants of the namespace table -/

theorem named_insert (pre post : List NAMESPACE) (e : NAMESPACE) (name : String)
    (he : e.name = some name) (h : ∀ ns ∈ pre ++ post, ns.name ≠ none) :
    ∀ ns ∈ pre ++ e :: post, ns.name ≠ none := by
  intro ns hns
  rcases List.mem_append.mp hns with h1 | h1
  · exact h ns (List.mem_append.mpr (Or.inl h1))
  · rcases List.mem_cons.mp h1 with rfl | h2
    · simp [he]
    · exact h ns (List.mem_append.mpr (Or.inr h2))

theorem nodup_insert (pre post : List NAMESPACE) (e : NAMESPACE) (name : String)
    (he : e.name = some name) (hno : ∀ ns ∈ pre ++ post, ns.name ≠ some name)
    (h : ((pre ++ post).map NAMESPACE.name).Nodup) :
    ((pre ++ e :: post).map NAMESPACE.name).Nodup := by
  rw [List.map_append, List.map_cons, List.nodup_middle, List.nodup_cons, ← List.map_append]
  refine ⟨?_, h⟩
  intro hmem
  obtain ⟨ns, hns, hname⟩ := List.mem_map.mp hmem
  exact hno ns hns (hname.trans he)

/-- Every table entry keeps carrying a name across the three operations. -/
theorem named_table_preserved (N : Native) (ctx : YARA_CONTEXT)
    (hcreate : CreatesNamespace N) (hkeep : CompilerKeepsTable N) (hnamed : NamedTable ctx) :
    (∀ name, NamedTable (rules_set_namespace N ctx name).2) ∧
    (∀ text ns, NamedTable (rules_compile_string N ctx text ns).2) ∧
    (∀ path ns, NamedTable (rules_compile_file N ctx path ns).2) := by
  have henter : ∀ ns, ∀ m ∈ (compile_string_enter N ctx ns).2.namespaces, m.name ≠ none := by
    intro ns
    rcases compile_string_enter_table N ctx ns hcreate with h | ⟨y, e, pre, post, _, _, he, hs, h⟩
    · rw [h]; exact hnamed
    · rw [h]
      exact named_insert pre post e y he (by rw [← hs]; exact hnamed)
  refine ⟨?_, ?_, ?_⟩
  · intro name
    rcases rules_set_namespace_cases N ctx name hcreate with
      ⟨e, _, hr⟩ | ⟨e, pre, post, _, he, hsplit, hr⟩
    · rw [hr]; exact hnamed
    · rw [hr]
      exact named_insert pre post e (c_string name) he (by rw [← hsplit]; exact hnamed)
  · intro text ns
    unfold NamedTable
    rw [(rules_compile_string_ctx N ctx text ns).2, hkeep.1]
    exact henter ns
  · intro path ns
    unfold NamedTable
    rcases Option.eq_none_or_eq_some (N.fopen path) with ho | ⟨file, ho⟩
    · simp only [rules_compile_file, ho]
      exact hnamed
    · rcases (rules_compile_file_ctx N ctx path ns file ho).2 with h | h
      · rw [h, hkeep.2.1, compile_file_enter_eq]
        exact henter ns
      · rw [h, hkeep.2.2, hkeep.2.1, compile_file_enter_eq]
        exact henter ns

/-- C9: if the names of the namespace table are pairwise distinct before a
`set_namespace(name)`, `compile_string(text, ns)` or `compile_file(path, ns)`
call, they are pairwise distinct after it: a namespace is created only when
`find_namespace` reports that no entry has the name.  (The engine creates
namespaces as its contract says, its compiler does not touch the table, and
every entry of the table carries a name.) -/
theorem unique_names_preserved (N : Native) (ctx : YARA_CONTEXT)
    (hcreate : CreatesNamespace N) (hkeep : CompilerKeepsTable N) (hnamed : NamedTable ctx)
    (huniq : UniqueNames ctx) :
    (∀ name, UniqueNames (rules_set_namespace N ctx name).2) ∧
    (∀ text ns, UniqueNames (rules_compile_string N ctx text ns).2) ∧
    (∀ path ns, UniqueNames (rules_compile_file N ctx path ns).2) := by
  have henter : ∀ ns,
      ((compile_string_enter N ctx ns).2.namespaces.map NAMESPACE.name).Nodup := by
    intro ns
    rcases compile_string_enter_table N ctx ns hcreate with
      h | ⟨y, e, pre, post, _, hf, he, hs, h⟩
    · rw [h]; exact huniq
    · rw [h]
      have hno := (find_namespace_loop_none y ctx.namespaces hnamed).mp hf
      exact nodup_insert pre post e y he (by rw [← hs]; exact hno) (by rw [← hs]; exact huniq)
  refine ⟨?_, ?_, ?_⟩
  · intro name
    rcases rules_set_namespace_cases N ctx name hcreate with
      ⟨e, _, hr⟩ | ⟨e, pre, post, hf, he, hsplit, hr⟩
    · rw [hr]; exact huniq
    · rw [hr]
      have hno := (find_namespace_loop_none (c_string name) ctx.namespaces hnamed).mp hf
      exact nodup_insert pre post e (c_string name) he (by rw [← hsplit]; exact hno)
        (by rw [← hsplit]; exact huniq)
  · intro text ns
    unfold UniqueNames
    rw [(rules_compile_string_ctx N ctx text ns).2, hkeep.1]
    exact henter ns
  · intro path ns
    unfold UniqueNames
    rcases Option.eq_none_or_eq_some (N.fopen path) with ho | ⟨file, ho⟩
    · simp only [rules_compile_file, ho]
      exact huniq
    · rcases (rules_compile_file_ctx N ctx path ns file ho).2 with h | h
      · rw [h, hkeep.2.1, compile_file_enter_eq]
        exact henter ns
      · rw [h, hkeep.2.2, hkeep.2.1, compile_file_enter_eq]
        exact henter ns

/-- Witness of C9 at the initial context of the reference engine. -/
theorem unique_names_preserved_witness :
    CreatesNamespace refNative ∧ CompilerKeepsTable refNative ∧ NamedTable ctx0 ∧
    UniqueNames ctx0 ∧
    rules_namespaces (rules_compile_string refNative ctx0 good_rules (some "Y")).2
      = ["Y", "default"] ∧
    ((∀ name, UniqueNames (rules_set_namespace refNative ctx0 name).2) ∧
    (∀ text ns, UniqueNames (rules_compile_string refNative ctx0 text ns).2) ∧
    (∀ path ns, UniqueNames (rules_compile_file refNative ctx0 path ns).2)) :=
  ⟨refNative_creates, refNative_keeps_table, by unfold NamedTable; decide,
    by unfold UniqueNames; decide, by decide,
    unique_names_preserved refNative ctx0 refNative_creates refNative_keeps_table
      (by unfold NamedTable; decide) (by unfold UniqueNames; decide)⟩

/-! ## Failed compiles -/

/-- C1 (evaluation at the failing input): with `X` current, a `compile_string`
and a `compile_file` call with namespace argument `Y` on malformed rules raise
CompileError, and `current_namespace()` is `Y` afterwards, not `X`: `rb_raise`
leaves the function before the lines that restore `orig_ns`. -/
theorem failed_compile_keeps_scoped_namespace :
    rules_current_namespace ctxX = some "X" ∧
    (rules_compile_string refNative ctxX bad_rules (some "Y")).1 =
      Result.raise RbClass.CompileError "Syntax Error - line(1): unexpected token" ∧
    rules_current_namespace (rules_compile_string refNative ctxX bad_rules (some "Y")).2
      = some "Y" ∧
    (rules_compile_file refNative ctxX "bad.yar" (some "Y")).1 =
      Result.raise RbClass.CompileError "Syntax Error - bad.yar(1): unexpected token" ∧
    rules_current_namespace (rules_compile_file refNative ctxX "bad.yar" (some "Y")).2
      = some "Y" ∧
    rules_current_namespace (rules_compile_string refNative ctxX good_rules (some "Y")).2
      = some "X" := by
  decide

theorem to_unsigned_eq_zero (r : Int) (h1 : -2147483648 ≤ r) (h2 : r < 2147483648) :
    to_unsigned r = 0 ↔ r = 0 := by
  unfold to_unsigned
  omega

theorem to_unsigned_inj (r e : Int) (h1 : -2147483648 ≤ r) (h2 : r < 2147483648)
    (h3 : -2147483648 ≤ e) (h4 : e < 2147483648) :
    to_unsigned r = to_unsigned e ↔ r = e := by
  unfold to_unsigned
  omega

theorem to_unsigned_nonneg (r : Int) : 0 ≤ to_unsigned r := by
  unfold to_unsigned
  omega

theorem to_unsigned_max_le (n : Nat) : to_unsigned (n : Int) ≤ (n : Int) := by
  unfold to_unsigned
  omega

/-- The two messages of `scan_file` never coincide. -/
theorem scan_messages_differ (text fname : String) :
    "A error occurred while scanning: " ++ text ≠ "Could not open file: '" ++ fname ++ "'" := by
  intro h
  have h2 := congrArg String.data h
  simp only [String.data_append] at h2
  have h3 := congrArg List.head? h2
  simp at h3

/-- With an unsigned `ret`, line 306 reads the table only at an index in
`0..MAX_SCAN_ERROR`. -/
theorem scan_file_error_text_range (N : Native) (r : Int) :
    scan_file_error_text N (to_unsigned r) = ErrorText.unknown_error ∨
    (scan_file_error_text N (to_unsigned r) = ErrorText.table_entry (to_unsigned r) ∧
      0 ≤ to_unsigned r ∧ to_unsigned r ≤ (N.MAX_SCAN_ERROR : Int)) := by
  unfold scan_file_error_text
  by_cases h : to_unsigned r > to_unsigned (N.MAX_SCAN_ERROR : Int)
  · left; simp [h]
  · right
    refine ⟨by simp [h], to_unsigned_nonneg r, ?_⟩
    have := to_unsigned_max_le N.MAX_SCAN_ERROR
    omega

/-- With a signed `ret`, line 343 reads the table at `ret` whenever `ret` is
at most `MAX_SCAN_ERROR`, negative codes included. -/
theorem scan_string_error_text_le (N : Native) (r : Int) (h : r ≤ (N.MAX_SCAN_ERROR : Int)) :
    scan_string_error_text N r = ErrorText.table_entry r := by
  unfold scan_string_error_text
  have : ¬ r > (N.MAX_SCAN_ERROR : Int) := by omega
  simp [this]

theorem table_read_in_range (N : Native) (i : Int) (h0 : 0 ≤ i)
    (h1 : i ≤ (N.MAX_SCAN_ERROR : Int)) (htable : N.MAX_SCAN_ERROR < N.SCAN_ERRORS.length) :
    ∃ s, table_read N i = some s := by
  unfold table_read
  have hlt : i.toNat < N.SCAN_ERRORS.length := by omega
  refine ⟨N.SCAN_ERRORS[i.toNat], ?_⟩
  simp [h0, List.getElem?_eq_getElem hlt]

/-- The three outcomes of `rules_scan_file` by the return code `r` of
`yr_scan_file`. -/
theorem rules_scan_file_cases (N : Native) (ctx : YARA_CONTEXT) (fname : String) (r : Int)
    (out : List Match) (ctx1 : YARA_CONTEXT)
    (hscan : N.yr_scan_file fname ctx (scan_callback N) [] = (r, out, ctx1))
    (hr : -2147483648 ≤ r ∧ r < 2147483648)
    (hE : -2147483648 ≤ N.ERROR_COULD_NOT_OPEN_FILE ∧ N.ERROR_COULD_NOT_OPEN_FILE < 2147483648) :
    (r = N.ERROR_COULD_NOT_OPEN_FILE →
      rules_scan_file N ctx fname =
        (Result.raise RbClass.ScanError ("Could not open file: '" ++ fname ++ "'"), ctx1)) ∧
    (r ≠ N.ERROR_COULD_NOT_OPEN_FILE → r ≠ 0 →
      rules_scan_file N ctx fname =
        (raise_scan_error N (scan_file_error_text N (to_unsigned r)), ctx1)) ∧
    (r ≠ N.ERROR_COULD_NOT_OPEN_FILE → r = 0 →
      rules_scan_file N ctx fname = (Result.value (VALUE.ary out), ctx1)) := by
  have hinj := to_unsigned_inj r N.ERROR_COULD_NOT_OPEN_FILE hr.1 hr.2 hE.1 hE.2
  have hz := to_unsigned_eq_zero r hr.1 hr.2
  refine ⟨?_, ?_, ?_⟩
  · intro h
    simp only [rules_scan_file, hscan, hinj.mpr h, if_true]
  · intro h1 h2
    have h3 : ¬ to_unsigned r = to_unsigned N.ERROR_COULD_NOT_OPEN_FILE := fun h => h1 (hinj.mp h)
    have h4 : to_unsigned r ≠ 0 := fun h => h2 (hz.mp h)
    simp only [rules_scan_file, hscan, h3, if_false, h4, ne_eq, not_false_eq_true, if_true]
  · intro h1 h2
    have h3 : ¬ to_unsigned r = to_unsigned N.ERROR_COULD_NOT_OPEN_FILE := fun h => h1 (hinj.mp h)
    have h4 : to_unsigned r = 0 := hz.mpr h2
    rw [h4] at h3
    simp only [rules_scan_file, hscan, h4, h3, if_false, ne_eq, not_true_eq_false]

/-- In `scan_file` the error text for a non-zero code is the literal or an
entry of the table, so the call raises ScanError with the scanning message. -/
theorem raise_scan_error_file (N : Native) (r : Int)
    (htable : N.MAX_SCAN_ERROR < N.SCAN_ERRORS.length) :
    ∃ text, raise_scan_error N (scan_file_error_text N (to_unsigned r)) =
      Result.raise RbClass.ScanError ("A error occurred while scanning: " ++ text) := by
  rcases scan_file_error_text_range N r with h | ⟨h, h0, h1⟩
  · rw [h]
    exact ⟨"unknown error", rfl⟩
  · rw [h]
    obtain ⟨s, hs⟩ := table_read_in_range N (to_unsigned r) h0 h1 htable
    exact ⟨s, by simp [raise_scan_error, hs]⟩

/-- C6: for every return code `r` of the native file scan, `scan_file` returns
the array of matches if and only if `r` is 0; when `r` is the
could-not-open-file code it raises ScanError with the message
`Could not open file: 'name'`, and for every other non-zero `r` it raises
ScanError with a message that starts `A error occurred while scanning: `,
which differs from the could-not-open message.  (`r` and the constant are C
`int` values, the constant is not 0, and `SCAN_ERRORS` has the entries
`0..MAX_SCAN_ERROR`.) -/
theorem scan_file_result (N : Native) (ctx : YARA_CONTEXT) (fname : String) (r : Int)
    (out : List Match) (ctx1 : YARA_CONTEXT)
    (hscan : N.yr_scan_file fname ctx (scan_callback N) [] = (r, out, ctx1))
    (hr : -2147483648 ≤ r ∧ r < 2147483648)
    (hE : -2147483648 ≤ N.ERROR_COULD_NOT_OPEN_FILE ∧ N.ERROR_COULD_NOT_OPEN_FILE < 2147483648)
    (hE0 : N.ERROR_COULD_NOT_OPEN_FILE ≠ 0)
    (htable : N.MAX_SCAN_ERROR < N.SCAN_ERRORS.length) :
    ((rules_scan_file N ctx fname).1 = Result.value (VALUE.ary out) ↔ r = 0) ∧
    ((∃ v, (rules_scan_file N ctx fname).1 = Result.value v) ↔ r = 0) ∧
    (r = N.ERROR_COULD_NOT_OPEN_FILE →
      (rules_scan_file N ctx fname).1 =
        Result.raise RbClass.ScanError ("Could not open file: '" ++ fname ++ "'")) ∧
    (r ≠ 0 → r ≠ N.ERROR_COULD_NOT_OPEN_FILE →
      ∃ text, (rules_scan_file N ctx fname).1 =
          Result.raise RbClass.ScanError ("A error occurred while scanning: " ++ text) ∧
        "A error occurred while scanning: " ++ text ≠ "Could not open file: '" ++ fname ++ "'") := by
  obtain ⟨hopen, herr, hok⟩ := rules_scan_file_cases N ctx fname r out ctx1 hscan hr hE
  have hraise : r ≠ 0 → ∃ k m, (rules_scan_file N ctx fname).1 = Result.raise k m := by
    intro h0
    by_cases h : r = N.ERROR_COULD_NOT_OPEN_FILE
    · exact ⟨_, _, by rw [hopen h]⟩
    · obtain ⟨text, ht⟩ := raise_scan_error_file N r htable
      exact ⟨_, _, by rw [herr h h0, ht]⟩
  have hval : ∀ v, (rules_scan_file N ctx fname).1 = Result.value v → r = 0 := by
    intro v hv
    by_contra h0
    obtain ⟨k, m, hkm⟩ := hraise h0
    rw [hkm] at hv
    cases hv
  have h0E : r = 0 → r ≠ N.ERROR_COULD_NOT_OPEN_FILE := fun h h2 => hE0 (h2 ▸ h)
  refine ⟨⟨hval _, fun h => by rw [hok (h0E h) h]⟩,
    ⟨fun ⟨v, hv⟩ => hval v hv, fun h => ⟨_, by rw [hok (h0E h) h]⟩⟩, ?_, ?_⟩
  · intro h
    rw [hopen h]
  · intro h0 h
    obtain ⟨text, ht⟩ := raise_scan_error_file N r htable
    exact ⟨text, by rw [herr h h0, ht], scan_messages_differ text fname⟩

/-- Witness of C6: scanning a file the reference engine cannot open (code 12). -/
theorem scan_file_result_witness :
    (rules_scan_file refNative ctx0 "missing").1 =
      Result.raise RbClass.ScanError "Could not open file: 'missing'" ∧
    (((rules_scan_file refNative ctx0 "missing").1 = Result.value (VALUE.ary []) ↔ (12 : Int) = 0) ∧
    ((∃ v, (rules_scan_file refNative ctx0 "missing").1 = Result.value v) ↔ (12 : Int) = 0) ∧
    ((12 : Int) = refNative.ERROR_COULD_NOT_OPEN_FILE →
      (rules_scan_file refNative ctx0 "missing").1 =
        Result.raise RbClass.ScanError ("Could not open file: '" ++ "missing" ++ "'")) ∧
    ((12 : Int) ≠ 0 → (12 : Int) ≠ refNative.ERROR_COULD_NOT_OPEN_FILE →
      ∃ text, (rules_scan_file refNative ctx0 "missing").1 =
          Result.raise RbClass.ScanError ("A error occurred while scanning: " ++ text) ∧
        "A error occurred while scanning: " ++ text ≠
          "Could not open file: '" ++ "missing" ++ "'")) :=
  ⟨by decide,
    scan_file_result refNative ctx0 "missing" 12 [] ctx0 (by decide) (by decide) (by decide)
      (by decide) (by decide)⟩

/-- C7: for every byte string, NUL bytes included, `scan_string` hands
`yr_scan_mem` the bytes of the whole Ruby string and the length
`RSTRING_LEN`, which is the number of bytes of the string and not the C
string length `strlen`: what the call returns is decided by the engine's
answer for that buffer and that length. -/
theorem scan_string_passes_length (N : Native) (ctx : YARA_CONTEXT) (buf : List Nat) :
    RSTRING_PTR buf = buf ∧ RSTRING_LEN buf = buf.length ∧
    rules_scan_string N ctx buf =
      (if (N.yr_scan_mem buf buf.length ctx (scan_callback N) []).1 ≠ 0 then
        raise_scan_error N (scan_string_error_text N
          (N.yr_scan_mem buf buf.length ctx (scan_callback N) []).1)
      else
        Result.value (VALUE.ary (N.yr_scan_mem buf buf.length ctx (scan_callback N) []).2.1),
      (N.yr_scan_mem buf buf.length ctx (scan_callback N) []).2.2) ∧
    strlen buf ≤ RSTRING_LEN buf ∧
    (0 ∈ buf → strlen buf < RSTRING_LEN buf) := by
  refine ⟨rfl, rfl, ?_, ?_, ?_⟩
  · by_cases h : (N.yr_scan_mem buf buf.length ctx (scan_callback N) []).1 = 0
    · simp [rules_scan_string, RSTRING_PTR, RSTRING_LEN, h]
    · simp [rules_scan_string, RSTRING_PTR, RSTRING_LEN, h]
  · unfold RSTRING_LEN
    induction buf with
    | nil => simp [strlen]
    | cons b t ih =>
      unfold strlen
      split
      · simp
      · simp only [List.length_cons]; omega
  · unfold RSTRING_LEN
    induction buf with
    | nil => simp
    | cons b t ih =>
      intro hmem
      unfold strlen
      by_cases hb : b = 0
      · simp [hb]
      · have ht : 0 ∈ t := by
          rcases List.mem_cons.mp hmem with h | h
          · exact absurd h.symm hb
          · exact h
        simp only [hb, if_false, List.length_cons]
        have := ih ht
        omega

/-- C10 (evaluation at the failing input): when `yr_scan_mem` returns -1,
the signed test `ret > MAX_SCAN_ERROR` of `scan_string` is false and the code
reads `SCAN_ERRORS[-1]`, for every value of `MAX_SCAN_ERROR`. -/
theorem scan_string_negative_code (N : Native) (ctx : YARA_CONTEXT) (buf : List Nat) :
    scan_string_error_text N (-1) = ErrorText.table_entry (-1) ∧
    table_read N (-1) = none ∧
    rules_scan_string { N with yr_scan_mem := fun _ _ c _ acc => (-1, acc, c) } ctx buf
      = (Result.out_of_table (-1), ctx) := by
  refine ⟨scan_string_error_text_le N (-1) (by omega), by simp [table_read], ?_⟩
  have h := scan_string_error_text_le
    { N with yr_scan_mem := fun _ _ c _ acc => (-1, acc, c) } (-1) (by omega)
  simp only [rules_scan_string, ne_eq, Int.reduceNeg, neg_eq_zero, one_ne_zero,
    not_false_eq_true, if_true, h]
  simp [raise_scan_error, table_read]

/-! ## Concrete evaluations -/

/-- The guard `ns->name` of the walks: behind a node without a name nothing is
visited, neither by `find_namespace` nor by `rules_namespaces`. -/
theorem walk_stops_at_unnamed_node :
    find_namespace ctxUnnamed "default" = none ∧ rules_namespaces ctxUnnamed = [] ∧
    named_part ctxUnnamed.namespaces = [] := by
  decide

/-- After a successful `compile_file` the file name is on the context's file
name stack (line 110), which `compile_string` leaves alone. -/
theorem compile_file_pushes_file_name :
    (rules_compile_file refNative ctx0 "good.yar" (some "Y")).2.file_name_stack = ["good.yar"] ∧
    (rules_compile_string refNative ctx0 good_rules (some "Y")).2.file_name_stack = [] := by
  decide

/-- A missing file: `compile_file` raises CompileError before any namespace
is switched or created. -/
theorem compile_file_missing_file :
    rules_compile_file refNative ctx0 "missing.yar" (some "Y") =
      (Result.raise RbClass.CompileError "No such file: missing.yar", ctx0) := by
  decide

/-- A buffer with a NUL byte in the middle: `strlen` is 1, the length handed
to the scanner is 3. -/
theorem buffer_with_nul_byte :
    strlen [65, 0, 66] = 1 ∧ RSTRING_LEN [65, 0, 66] = 3 := by
  decide

/-- Scanning with the rule `A` compiled into namespace `Y` reports `A`. -/
theorem scan_reports_compiled_rule :
    (rules_scan_string refNative
      (rules_compile_string refNative ctx0 good_rules (some "Y")).2 [65, 0, 66]).1 =
      Result.value (VALUE.ary [⟨⟨"A", some "Y"⟩⟩]) := by
  decide

end YaraRuby
